import Mathlib

/-!
# Verification of the spreadsheet import engine

Shallow embedding of `src/utils/excelParser.ts` (the import resolution and
normalization engine): the string normalizer, the header-alias resolver
`findKey`, the date coercion logic, the per-row loop of `parseExcelFile`,
and the diagnostics accumulator.  JavaScript strings are modelled as Lean
`String`, JavaScript numbers restricted to integers (`Int`), and a native
`Date` as its epoch instant in minutes together with the value returned by
`getTimezoneOffset` and a validity flag.  Fallible paths are `Except`.
-/

namespace ControleVencimentos

/-! ## Character level helpers for the string normalizer -/

/-- Characters kept by the regex replacement `replace(/[^a-z0-9]/g, "")`:
ASCII lowercase letters and ASCII digits. -/
def isKeepChar (c : Char) : Bool :=
  (97 ≤ c.toNat && c.toNat ≤ 122) || (48 ≤ c.toNat && c.toNat ≤ 57)

/-- Combining diacritical marks, the range removed by
`replace(/[̀-ͯ]/g, "")`. -/
def isCombiningMark (c : Char) : Bool :=
  0x300 ≤ c.toNat && c.toNat ≤ 0x36f

/-- Whitespace recognized by JavaScript `String.prototype.trim` (restricted
to the ASCII repertoire plus NBSP, which is all the development exercises). -/
def isJsWhitespace (c : Char) : Bool :=
  c.toNat = 32 || c.toNat = 9 || c.toNat = 10 || c.toNat = 13 ||
  c.toNat = 11 || c.toNat = 12 || c.toNat = 0xa0

/-- JavaScript `toLowerCase`, modelled for ASCII plus the accented Latin
capitals that the alias tables and the spec scenarios can exercise; identity
elsewhere. -/
def jsToLowerChar (c : Char) : Char :=
  if 65 ≤ c.toNat ∧ c.toNat ≤ 90 then Char.ofNat (c.toNat + 32)
  else if c.toNat = 0xc1 then Char.ofNat 0xe1   -- A acute
  else if c.toNat = 0xc0 then Char.ofNat 0xe0   -- A grave
  else if c.toNat = 0xc2 then Char.ofNat 0xe2   -- A circumflex
  else if c.toNat = 0xc3 then Char.ofNat 0xe3   -- A tilde
  else if c.toNat = 0xc9 then Char.ofNat 0xe9   -- E acute
  else if c.toNat = 0xca then Char.ofNat 0xea   -- E circumflex
  else if c.toNat = 0xcd then Char.ofNat 0xed   -- I acute
  else if c.toNat = 0xd3 then Char.ofNat 0xf3   -- O acute
  else if c.toNat = 0xd4 then Char.ofNat 0xf4   -- O circumflex
  else if c.toNat = 0xd5 then Char.ofNat 0xf5   -- O tilde
  else if c.toNat = 0xda then Char.ofNat 0xfa   -- U acute
  else if c.toNat = 0xc7 then Char.ofNat 0xe7   -- C cedilla
  else c

/-- Unicode canonical decomposition (`normalize("NFD")`), modelled for the
lowercase accented Latin letters the repertoire above can produce; NFD is the
identity on ASCII, which is all the proofs rely on. -/
def nfdChar (c : Char) : List Char :=
  if c.toNat = 0xe1 then [Char.ofNat 97, Char.ofNat 0x301]   -- a acute
  else if c.toNat = 0xe0 then [Char.ofNat 97, Char.ofNat 0x300]
  else if c.toNat = 0xe2 then [Char.ofNat 97, Char.ofNat 0x302]
  else if c.toNat = 0xe3 then [Char.ofNat 97, Char.ofNat 0x303]
  else if c.toNat = 0xe9 then [Char.ofNat 101, Char.ofNat 0x301]
  else if c.toNat = 0xea then [Char.ofNat 101, Char.ofNat 0x302]
  else if c.toNat = 0xed then [Char.ofNat 105, Char.ofNat 0x301]
  else if c.toNat = 0xf3 then [Char.ofNat 111, Char.ofNat 0x301]
  else if c.toNat = 0xf4 then [Char.ofNat 111, Char.ofNat 0x302]
  else if c.toNat = 0xf5 then [Char.ofNat 111, Char.ofNat 0x303]
  else if c.toNat = 0xfa then [Char.ofNat 117, Char.ofNat 0x301]
  else if c.toNat = 0xe7 then [Char.ofNat 99, Char.ofNat 0x327]  -- c cedilla
  else [c]

/-- JavaScript `trim` on a character list: drop whitespace from both ends. -/
def jsTrimList (l : List Char) : List Char :=
  ((l.dropWhile isJsWhitespace).reverse.dropWhile isJsWhitespace).reverse

/-- JavaScript `String.prototype.trim`. -/
def jsTrim (s : String) : String :=
  String.mk (jsTrimList s.data)

/-- The string normalizer of `excelParser.ts` on an actual string:
`str.toString().toLowerCase().normalize("NFD").replace(/[̀-ͯ]/g,"")
.replace(/[^a-z0-9]/g,"").trim()`. -/
def normalize (s : String) : String :=
  jsTrim (String.mk ((((s.data.map jsToLowerChar).map nfdChar).flatten.filter
    (fun c => !isCombiningMark c)).filter isKeepChar))

/-- The full `normalize` including its null and undefined guard
(`if (str === null || str === undefined) return ""`), with the absent values
modelled as `none`. -/
def normalizeAny : Option String → String
  | none => ""
  | some s => normalize s

/-- JavaScript `String.prototype.includes`: contiguous substring test
(always true for the empty search string). -/
def strIncludes (s pat : String) : Bool :=
  decide (pat.data <:+: s.data)

/-- JavaScript `Array.prototype.join(", ")`. -/
def joinComma : List String → String
  | [] => ""
  | [s] => s
  | s :: rest => s ++ ", " ++ joinComma rest

/-- `String.prototype.padStart(2, "0")`. -/
def pad2 (s : String) : String :=
  if 2 ≤ s.length then s else String.mk (List.replicate (2 - s.length) '0') ++ s

/-- Zero padding of the year field inside `toISOString` (4 digits). -/
def pad4 (s : String) : String :=
  if 4 ≤ s.length then s else String.mk (List.replicate (4 - s.length) '0') ++ s

/-- Zero padding of the expanded-year format of `toISOString` (6 digits). -/
def pad6 (s : String) : String :=
  if 6 ≤ s.length then s else String.mk (List.replicate (6 - s.length) '0') ++ s

/-! ## JavaScript `parseInt` -/

/-- Value of one hexadecimal digit, if any. -/
def hexDigitVal (c : Char) : Option Nat :=
  if 48 ≤ c.toNat ∧ c.toNat ≤ 57 then some (c.toNat - 48)
  else if 97 ≤ c.toNat ∧ c.toNat ≤ 102 then some (c.toNat - 87)
  else if 65 ≤ c.toNat ∧ c.toNat ≤ 70 then some (c.toNat - 55)
  else none

/-- Digits of a numeral prefix folded into a value in the given base. -/
def digitsVal (base : Nat) (digitVal : Char → Option Nat) : List Char → Nat → Nat
  | [], acc => acc
  | c :: cs, acc =>
    match digitVal c with
    | some v => digitsVal base digitVal cs (acc * base + v)
    | none => acc

/-- Does the numeral prefix contain at least one digit? -/
def hasDigit (digitVal : Char → Option Nat) (l : List Char) : Bool :=
  match l with
  | [] => false
  | c :: _ => (digitVal c).isSome

/-- JavaScript `parseInt(x)` (radix unspecified): skip leading whitespace,
read an optional sign, detect a `0x` prefix for hexadecimal, then take the
longest digit prefix; `none` models `NaN`. -/
def jsParseInt (s : String) : Option Int :=
  let l := s.data.dropWhile isJsWhitespace
  let (neg, l) :=
    match l with
    | '-' :: rest => (true, rest)
    | '+' :: rest => (false, rest)
    | _ => (false, l)
  let (base, l, dv) :=
    match l with
    | '0' :: 'x' :: rest => (16, rest, hexDigitVal)
    | '0' :: 'X' :: rest => (16, rest, hexDigitVal)
    | _ => (10, l, fun c => if 48 ≤ c.toNat ∧ c.toNat ≤ 57 then some (c.toNat - 48) else none)
  if hasDigit dv l then
    let n : Int := Int.ofNat (digitsVal base dv l 0)
    some (if neg then -n else n)
  else none

/-! ## Raw cell values and rows

`sheet_to_json` hands the row loop objects mapping header strings to cell
values that are strings, numbers or native dates (`cellDates: true`), with
`defval: ""` filling holes.  Numbers are modelled as integers; a native
`Date` carries its epoch instant in minutes, the value `getTimezoneOffset`
returns (minutes, positive west of UTC, so local time = instant − offset)
and a validity flag (`isNaN(getTime())` is true exactly when `valid` is
false). -/

structure JSDate where
  epochMin : Int
  tzOffsetMin : Int
  valid : Bool
deriving DecidableEq, Repr

inductive CellValue
  | str (s : String)
  | num (n : Int)
  | date (d : JSDate)
deriving DecidableEq, Repr

/-- A row object: association list from header string to cell value, in
`Object.keys` order (JavaScript object keys are unique). -/
abbrev RawRow := List (String × CellValue)

/-- Property access `row[k]`: `none` models `undefined`. -/
def rowGet (r : RawRow) (k : String) : Option CellValue :=
  (r.find? (fun kv => kv.1 = k)).map (·.2)

/-- JavaScript truthiness test on a cell value: `""` and `0` are falsy,
every object (in particular every `Date`) is truthy. -/
def jsFalsy : CellValue → Bool
  | .str s => s = ""
  | .num n => n = 0
  | .date _ => false

/-- Truthiness of a possibly undefined cell (`undefined` is falsy). -/
def jsFalsyOpt : Option CellValue → Bool
  | none => true
  | some c => jsFalsy c

/-- JavaScript `String(...)` of a cell value.  The verbose native rendering
of a `Date` object (weekday, month name, timezone suffix) is abstracted to a
placeholder that, like the real rendering, is non-empty and starts with a
letter; the parser never inspects its text. -/
def jsToString : CellValue → String
  | .str s => s
  | .num n => toString n
  | .date d => if d.valid then "Date " ++ toString d.epochMin else "Invalid Date"

/-- `String(x)` where `x` may be `undefined`. -/
def jsToStringOpt : Option CellValue → String
  | none => "undefined"
  | some c => jsToString c

/-! ## Header-alias resolution (`findKey`) -/

/-- `findKey` of `excelParser.ts`: an exact pass over `Object.keys(row)`
against the normalized aliases, then a containment pass guarded by the
normalized header being non-empty. -/
def findKey (row : RawRow) (aliases : List String) : Option String :=
  let keys := row.map Prod.fst
  let normalizedAliases := aliases.map (fun a => normalizeAny (some a))
  match keys.find? (fun k => normalizedAliases.contains (normalizeAny (some k))) with
  | some exactMatch => some exactMatch
  | none =>
    keys.find? (fun k =>
      let normK := normalizeAny (some k)
      normalizedAliases.any (fun al => normK ≠ "" && strIncludes normK al))

/-- Alias lists of `parseExcelFile`, exactly as configured in the source. -/
def aliasesName : List String := ["produto", "nome", "item", "desc", "name", "artigo"]

def aliasesExpiry : List String := ["validade", "vencimento", "vence", "data", "expiry", "exp", "val"]

def aliasesCategory : List String := ["categoria", "tipo", "grupo", "cat"]

def aliasesQuantity : List String := ["quantidade", "qtd", "estoque", "quant", "unidades"]

def aliasesLocation : List String := ["local", "setor", "posicao", "armario"]

def aliasesBarcode : List String := ["codigo", "barcode", "ean", "gtin", "cod"]

structure ColMapping where
  name : Option String
  expiry : Option String
  category : Option String
  quantity : Option String
  location : Option String
  barcode : Option String
deriving DecidableEq, Repr

/-- The `colMapping` object built from the first populated row. -/
def colMappingOf (fr : RawRow) : ColMapping where
  name := findKey fr aliasesName
  expiry := findKey fr aliasesExpiry
  category := findKey fr aliasesCategory
  quantity := findKey fr aliasesQuantity
  location := findKey fr aliasesLocation
  barcode := findKey fr aliasesBarcode

/-- Falsiness of a resolved column key, as tested by
`if (!colMapping.name || !colMapping.expiry)`: `undefined` or `""`. -/
def jsFalsyKey : Option String → Bool
  | none => true
  | some s => s = ""

/-! ## Date coercion -/

/-- The separators of the regex `/[-\x2f.]/` used on textual dates. -/
def isDateSep (c : Char) : Bool :=
  c = '-' || c = '/' || c = '.'

/-- JavaScript `split` on a single-character class: every separator occurrence
cuts, and empty pieces are kept (the empty string yields one empty piece). -/
def splitChars (p : Char → Bool) : List Char → List (List Char)
  | [] => [[]]
  | c :: cs =>
    if p c then [] :: splitChars p cs
    else
      match splitChars p cs with
      | [] => [[c]]
      | h :: t => (c :: h) :: t

/-- `String.prototype.split` against a character-class regex. -/
def jsSplit (s : String) (p : Char → Bool) : List String :=
  (splitChars p s.data).map String.mk

/-- The textual branch of the date logic: trim, split on `- / .`, and if
exactly three tokens remain reorder on the position of the 4-character
token, zero-padding the day and month slots; `""` signals an invalid date. -/
def textDate (raw : String) : String :=
  let dateStr := jsTrim raw
  let parts := jsSplit dateStr isDateSep
  if parts.length = 3 then
    if (parts.getD 2 "").length = 4 then
      (parts.getD 2 "") ++ "-" ++ pad2 (parts.getD 1 "") ++ "-" ++ pad2 (parts.getD 0 "")
    else if (parts.getD 0 "").length = 4 then
      (parts.getD 0 "") ++ "-" ++ pad2 (parts.getD 1 "") ++ "-" ++ pad2 (parts.getD 2 "")
    else ""
  else ""

/-- Days-to-civil-date conversion for the proleptic Gregorian calendar
(day 0 is 1970-01-01); the standard era/year-of-era computation, with the
era taken by floor division, which agrees with the usual truncated-division
formulation for every input. -/
def civilFromDays (z0 : Int) : Int × Int × Int :=
  let z := z0 + 719468
  let era : Int := Int.fdiv z 146097
  let doe : Int := z - era * 146097
  let yoe : Int := (doe - doe / 1460 + doe / 36524 - doe / 146096) / 365
  let y : Int := yoe + era * 400
  let doy : Int := doe - (365 * yoe + yoe / 4 - yoe / 100)
  let mp : Int := (5 * doy + 2) / 153
  let d : Int := doy - (153 * mp + 2) / 5 + 1
  let m : Int := mp + (if mp < 10 then 3 else -9)
  (y + (if m ≤ 2 then 1 else 0), m, d)

/-- Epoch day of the UTC instant of a date (what `toISOString` renders). -/
def utcDayOf (d : JSDate) : Int :=
  Int.fdiv d.epochMin 1440

/-- Epoch day of the local wall-clock reading of a date (what the accessors
`getFullYear`, `getMonth`, `getDate` render). -/
def localDayOf (d : JSDate) : Int :=
  Int.fdiv (d.epochMin - d.tzOffsetMin) 1440

/-- Year rendering of `toISOString`: four digits in 0..9999, otherwise the
signed six-digit expanded format. -/
def isoYearStr (y : Int) : String :=
  if y < 0 then "-" ++ pad6 (toString (-y))
  else if y ≤ 9999 then pad4 (toString y)
  else "+" ++ pad6 (toString y)

/-- Rendering of a civil triple in the date slot of `toISOString`. -/
def isoTriple (t : Int × Int × Int) : String :=
  isoYearStr t.1 ++ "-" ++ pad2 (toString t.2.1) ++ "-" ++ pad2 (toString t.2.2)

/-- `expiryVal.toISOString().split("T")[0]`: the date is rendered from its
UTC calendar fields. -/
def dateToIso (d : JSDate) : String :=
  isoTriple (civilFromDays (utcDayOf d))

/-- `XLSX.SSF.parse_date_code` on an integral day serial: `none` models the
`null` returned outside `[0, 2958465]`; serial 60 is the phantom 1900-02-29
and serial 0 renders as 1900-01-00, mirroring the leap-year-1900 quirk.
Serial 1 is 1900-01-01, whose epoch day is −25567. -/
def parse_date_code (v : Int) : Option (Int × Int × Int) :=
  if v > 2958465 ∨ v < 0 then none
  else if v = 60 then some (1900, 2, 29)
  else if v = 0 then some (1900, 1, 0)
  else
    let date := if v > 60 then v - 1 else v
    some (civilFromDays (date - 1 - 25567))

/-- The whole date coercion block of the row loop (`let expiryDate = ''`
through line 134): a native valid date goes through `toISOString`, a number
through `parse_date_code` (where a `null` result makes the property access
`d.y` throw a `TypeError`, modelled as `Except.error`), and anything else
through the textual branch applied to `String(expiryVal)`. -/
def computeExpiry (v : Option CellValue) : Except String String :=
  match v with
  | some (.date d) =>
    if d.valid then .ok (dateToIso d) else .ok (textDate (jsToString (.date d)))
  | some (.num n) =>
    match parse_date_code n with
    | none => .error "Cannot read properties of null (reading \x27y\x27)"
    | some (y, m, dd) => .ok (toString y ++ "-" ++ pad2 (toString m) ++ "-" ++ pad2 (toString dd))
  | v => .ok (textDate (jsToStringOpt v))

/-! ## The row loop -/

structure StagedRecord where
  name : String
  expiryDate : String
  category : String
  quantity : Int
  location : String
  barcode : String
deriving DecidableEq, Repr

structure SkippedRow where
  row : Nat
  reason : String
deriving DecidableEq, Repr

/-- Outcome of one iteration of the row loop, before the row number is
attached to a skip record.  The constructor is independent of the row
number because the loop uses `rowNum` only inside the skip payload. -/
inductive RowClass
  | acceptedC (rec : StagedRecord)
  | skippedC (reason : String)
  | ignoredC
  | fatalC (msg : String)
deriving DecidableEq, Repr

/-- One iteration of `json.slice(headerRowIndex).forEach`: the blank-name
guard, the date coercion with its validity gate, and the construction of the
staged record with its defaulting rules. -/
def classifyRow (cm : ColMapping) (r : RawRow) : RowClass :=
  let nameVal := cm.name.bind (rowGet r)
  let expiryVal := cm.expiry.bind (rowGet r)
  if jsFalsyOpt nameVal = true ∨ jsTrim (jsToStringOpt nameVal) = "" then .ignoredC
  else
    match computeExpiry expiryVal with
    | .error m => .fatalC m
    | .ok expiryDate =>
      if expiryDate = "" ∨ expiryDate = "NaN-NaN-NaN" then
        .skippedC ("Data inválida: \x22" ++ jsToStringOpt expiryVal ++ "\x22")
      else
        .acceptedC
          { name := jsTrim (jsToStringOpt nameVal)
            expiryDate := expiryDate
            category :=
              match cm.category with
              | some k =>
                if jsFalsyOpt (rowGet r k) then "Geral" else jsToStringOpt (rowGet r k)
              | none => "Geral"
            quantity :=
              match cm.quantity with
              | some k =>
                (match jsParseInt (jsToStringOpt (rowGet r k)) with
                 | none => 1
                 | some q => if q = 0 then 1 else q)
              | none => 1
            location :=
              match cm.location with
              | some k => if jsFalsyOpt (rowGet r k) then "" else jsToStringOpt (rowGet r k)
              | none => ""
            barcode :=
              match cm.barcode with
              | some k => if jsFalsyOpt (rowGet r k) then "" else jsToStringOpt (rowGet r k)
              | none => "" }

/-- Boolean projections of `classifyRow`, used for row accounting. -/
def isAcceptedRow (cm : ColMapping) (r : RawRow) : Bool :=
  match classifyRow cm r with
  | .acceptedC _ => true
  | _ => false

def isSkippedRow (cm : ColMapping) (r : RawRow) : Bool :=
  match classifyRow cm r with
  | .skippedC _ => true
  | _ => false

def isIgnoredRow (cm : ColMapping) (r : RawRow) : Bool :=
  match classifyRow cm r with
  | .ignoredC => true
  | _ => false

/-- The mutable state of the loop: the accepted records accumulator
`result.products`, `result.diagnostics.successCount` and
`result.diagnostics.skippedRows`. -/
structure LoopState where
  products : List StagedRecord
  successCount : Nat
  skippedRows : List SkippedRow
deriving DecidableEq, Repr

/-- The loop itself; `rowNum` is `headerRowIndex + index + 2`.  A thrown
`TypeError` (from `parse_date_code` returning `null`) aborts iteration and
surfaces as the second component. -/
def runRows (cm : ColMapping) : Nat → List RawRow → LoopState → LoopState × Option String
  | _, [], st => (st, none)
  | rowNum, r :: rest, st =>
    match classifyRow cm r with
    | .acceptedC rec =>
      runRows cm (rowNum + 1) rest
        ⟨st.products ++ [rec], st.successCount + 1, st.skippedRows⟩
    | .skippedC reason =>
      runRows cm (rowNum + 1) rest
        ⟨st.products, st.successCount, st.skippedRows ++ [⟨rowNum, reason⟩]⟩
    | .ignoredC => runRows cm (rowNum + 1) rest st
    | .fatalC m => (st, some m)

/-! ## Diagnostics and the import entry point -/

structure Diagnostics where
  totalRowsFound : Nat
  successCount : Nat
  skippedRows : List SkippedRow
  columnsFound : List String
  steps : List String
  rawPreview : List RawRow
deriving DecidableEq, Repr

structure ImportResult where
  products : List StagedRecord
  diagnostics : Diagnostics
deriving DecidableEq, Repr

structure ImportFailure where
  message : String
  diagnostics : Diagnostics
deriving DecidableEq, Repr

deriving instance DecidableEq for Except

/-- The single step-log entry the parser pushes. -/
def readStep (fileName : String) : String :=
  "Lendo arquivo: " ++ fileName

def emptySheetMsg : String :=
  "A planilha parece estar vazia."

/-- The `MissingRequiredColumns` message, enumerating the observed headers
through `join(", ")`. -/
def missingColsMsg (cols : List String) : String :=
  "Não encontrei as colunas \x27Produto\x27 e \x27Validade\x27.\nColunas detectadas: "
    ++ joinComma cols

/-- Message of the `TypeError` thrown by `Object.keys(undefined)`. -/
def keysOfUndefinedMsg : String :=
  "Cannot convert undefined or null to object"

/-- `keys.some(k => row[k] !== "")`: does the row hold any non-empty value? -/
def hasData (r : RawRow) : Bool :=
  r.any (fun kv => kv.2 ≠ CellValue.str "")

/-- The header search: index of the first row among the first
`min(length, 10)` holding data, or that bound when none does. -/
def headerRowIndexOf (json : List RawRow) : Nat :=
  ((json.take (min json.length 10)).takeWhile (fun r => !hasData r)).length

/-- The column mapping the import works with (resolved from the first
populated row when one exists). -/
def colMapAt (json : List RawRow) : ColMapping :=
  match json.get? (headerRowIndexOf json) with
  | some fr => colMappingOf fr
  | none => ⟨none, none, none, none, none, none⟩

/-- The import engine of `parseExcelFile`, starting from the decoded table
(the `json` array of `sheet_to_json`); file reading and workbook decoding
are the external source reader.  Mirrors the source line by line: the empty
check before `rawPreview` is set, the header search, the fatal
missing-columns check, the row loop, and `totalRowsFound` being written only
after the loop, so that every failure carries exactly the diagnostics
accumulated so far. -/
def parseTable (fileName : String) (json : List RawRow) : Except ImportFailure ImportResult :=
  if json.isEmpty then
    .error ⟨emptySheetMsg, ⟨0, 0, [], [], [readStep fileName], []⟩⟩
  else
    match json.get? (headerRowIndexOf json) with
    | none => .error ⟨keysOfUndefinedMsg, ⟨0, 0, [], [], [readStep fileName], json.take 3⟩⟩
    | some fr =>
      if jsFalsyKey (colMappingOf fr).name = true ∨ jsFalsyKey (colMappingOf fr).expiry = true then
        .error ⟨missingColsMsg (fr.map Prod.fst),
          ⟨0, 0, [], fr.map Prod.fst, [readStep fileName], json.take 3⟩⟩
      else
        match runRows (colMappingOf fr) (headerRowIndexOf json + 2)
            (json.drop (headerRowIndexOf json)) ⟨[], 0, []⟩ with
        | (st, some m) =>
          .error ⟨m, ⟨0, st.successCount, st.skippedRows, fr.map Prod.fst,
            [readStep fileName], json.take 3⟩⟩
        | (st, none) =>
          .ok ⟨st.products, ⟨json.length, st.successCount, st.skippedRows,
            fr.map Prod.fst, [readStep fileName], json.take 3⟩⟩

/-! ## Syntactic ISO date shape -/

/-- Syntactic test for the shape `YYYY-MM-DD` with numeric, zero-padded
components. -/
def isISODate (s : String) : Bool :=
  match s.data with
  | [y1, y2, y3, y4, h1, m1, m2, h2, d1, d2] =>
    y1.isDigit && y2.isDigit && y3.isDigit && y4.isDigit && (h1 == '-') &&
    m1.isDigit && m2.isDigit && (h2 == '-') && d1.isDigit && d2.isDigit
  | _ => false

/-- All characters of a string are ASCII digits. -/
def allDigits (s : String) : Bool :=
  s.data.all Char.isDigit

/-! ## Concrete tables used by the claim theorems -/

/-- The accepted record of spec scenario A. -/
def recordA : StagedRecord :=
  ⟨"Leite", "2025-12-31", "Geral", 1, "", ""⟩

/-- The single-row table of spec scenario A. -/
def tableA : List RawRow :=
  [[("Produto", CellValue.str "Leite"), ("Validade", CellValue.str "31/12/2025")]]

/-- A table whose quantity cell holds `-5`. -/
def tableQ : List RawRow :=
  [[("Produto", CellValue.str "Leite"), ("Validade", CellValue.str "31/12/2025"),
    ("Quantidade", CellValue.str "-5")]]

/-- Scenario D table: a blank-name row with a valid date, then a normal row. -/
def tableD : List RawRow :=
  [[("Produto", CellValue.str ""), ("Validade", CellValue.str "31/12/2025")],
   [("Produto", CellValue.str "Leite"), ("Validade", CellValue.str "31/12/2025")]]

/-- A table that reaches the row loop but crashes it: the expiry cell holds
the number −1, `parse_date_code` returns `null`, and the property access
`d.y` throws, rejecting the whole import. -/
def tableFatal : List RawRow :=
  [[("Produto", CellValue.str "x"), ("Validade", CellValue.num (-1))]]

/-- The C1 counterexample table: a text expiry whose three tokens are not
numeric. -/
def tableBad : List RawRow :=
  [[("Produto", CellValue.str "X"), ("Validade", CellValue.str "ab/cd/efgh")]]

/-- The scenario C table: no expiry-like header. -/
def tableC : List RawRow :=
  [[("Produto", CellValue.str "x"), ("Preço", CellValue.str "1")]]

/-- The failure produced by scenario C. -/
def failureC : ImportFailure :=
  ⟨missingColsMsg ["Produto", "Preço"],
    ⟨0, 0, [], ["Produto", "Preço"], [readStep "arq"], tableC⟩⟩

/-- The row-loop output of an import (state after the loop and the fatal
message, if any). -/
def loopOut (json : List RawRow) : LoopState × Option String :=
  runRows (colMapAt json) (headerRowIndexOf json + 2)
    (json.drop (headerRowIndexOf json)) ⟨[], 0, []⟩


/-! ## Helper lemmas: strings and the normalizer -/

theorem data_append (a b : String) : (a ++ b).data = a.data ++ b.data := rfl

theorem mk_data (s : String) : String.mk s.data = s := rfl

theorem jsToLowerChar_keep {c : Char} (h : isKeepChar c = true) : jsToLowerChar c = c := by
  simp only [isKeepChar, Bool.or_eq_true, Bool.and_eq_true, decide_eq_true_eq] at h
  unfold jsToLowerChar
  repeat rw [if_neg (by omega)]

theorem nfdChar_keep {c : Char} (h : isKeepChar c = true) : nfdChar c = [c] := by
  simp only [isKeepChar, Bool.or_eq_true, Bool.and_eq_true, decide_eq_true_eq] at h
  unfold nfdChar
  repeat rw [if_neg (by omega)]

theorem not_combining_of_keep {c : Char} (h : isKeepChar c = true) :
    isCombiningMark c = false := by
  simp only [isKeepChar, Bool.or_eq_true, Bool.and_eq_true, decide_eq_true_eq] at h
  simp only [isCombiningMark, Bool.and_eq_false_iff, decide_eq_false_iff_not]
  omega

theorem not_ws_of_keep {c : Char} (h : isKeepChar c = true) :
    isJsWhitespace c = false := by
  simp only [isKeepChar, Bool.or_eq_true, Bool.and_eq_true, decide_eq_true_eq] at h
  simp only [isJsWhitespace]
  simp only [Bool.or_eq_false_iff, decide_eq_false_iff_not]
  omega

theorem dropWhile_eq_self_of {p : Char → Bool} {l : List Char}
    (h : ∀ c ∈ l, p c = false) : l.dropWhile p = l := by
  cases l with
  | nil => rfl
  | cons a t => simp [List.dropWhile_cons, h a (by simp)]

theorem jsTrimList_eq_self {l : List Char} (h : ∀ c ∈ l, isJsWhitespace c = false) :
    jsTrimList l = l := by
  unfold jsTrimList
  rw [dropWhile_eq_self_of h, dropWhile_eq_self_of (fun c hc => h c (by
    simpa using hc)), List.reverse_reverse]

theorem mem_of_mem_jsTrimList {c : Char} {l : List Char} (h : c ∈ jsTrimList l) : c ∈ l := by
  unfold jsTrimList at h
  rw [List.mem_reverse] at h
  have h1 := (List.dropWhile_sublist (l := (l.dropWhile isJsWhitespace).reverse)
    (p := isJsWhitespace)).subset h
  rw [List.mem_reverse] at h1
  exact (List.dropWhile_sublist (l := l) (p := isJsWhitespace)).subset h1

theorem normalize_keep (s : String) : ∀ c ∈ (normalize s).data, isKeepChar c = true := by
  intro c hc
  unfold normalize jsTrim at hc
  have hc2 : c ∈ ((((s.data.map jsToLowerChar).map nfdChar).flatten.filter
      (fun c => !isCombiningMark c)).filter isKeepChar) := by
    exact mem_of_mem_jsTrimList hc
  exact (List.mem_filter.mp hc2).2

theorem normalize_pipeline_id {l : List Char} (h : ∀ c ∈ l, isKeepChar c = true) :
    (((l.map jsToLowerChar).map nfdChar).flatten.filter
      (fun c => !isCombiningMark c)).filter isKeepChar = l := by
  induction l with
  | nil => rfl
  | cons a t ih =>
    have ha : isKeepChar a = true := h a (by simp)
    have ht : ∀ c ∈ t, isKeepChar c = true := fun c hc => h c (by simp [hc])
    simp only [List.map_cons, jsToLowerChar_keep ha, nfdChar_keep ha,
      List.flatten_cons, List.singleton_append]
    rw [List.filter_cons_of_pos (by simp [not_combining_of_keep ha]),
      List.filter_cons_of_pos ha, ih ht]

/-- C10 helper: the normalizer is the identity on a string all of whose
characters are kept. -/
theorem normalize_of_keep {s : String} (h : ∀ c ∈ s.data, isKeepChar c = true) :
    normalize s = s := by
  unfold normalize jsTrim
  rw [normalize_pipeline_id h, jsTrimList_eq_self (fun c hc => not_ws_of_keep (h c hc)),
    mk_data]

/-! ## Claim C10: the normalizer -/

/-- C10: for every input, the string normalizer returns a string containing
only ASCII lowercase letters and digits, it is idempotent, and null or
undefined inputs normalize to the empty string. -/
theorem normalizeAny_alnum_idempotent :
    (∀ x : Option String,
      (∀ c ∈ (normalizeAny x).data, isKeepChar c = true) ∧
      normalizeAny (some (normalizeAny x)) = normalizeAny x) ∧
    normalizeAny none = "" := by
  refine ⟨fun x => ?_, rfl⟩
  cases x with
  | none =>
    exact ⟨by intro c hc; simp [normalizeAny] at hc, rfl⟩
  | some s =>
    exact ⟨normalize_keep s, normalize_of_keep (normalize_keep s)⟩

/-! ## Claims C7 and C8: header-alias resolution -/

/-- C7: exact matches outrank substring matches regardless of position.  If
some header normalizes to a normalized alias, `findKey` returns the first
such header in left-to-right order (the containment pass is never
consulted); only when no header matches exactly does the containment pass
choose. -/
theorem findKey_exact_outranks (row : RawRow) (aliases : List String) :
    ((∃ k ∈ row.map Prod.fst,
        normalizeAny (some k) ∈ aliases.map (fun a => normalizeAny (some a))) →
      findKey row aliases = (row.map Prod.fst).find?
        (fun k => (aliases.map (fun a => normalizeAny (some a))).contains
          (normalizeAny (some k)))) ∧
    ((∀ k ∈ row.map Prod.fst,
        normalizeAny (some k) ∉ aliases.map (fun a => normalizeAny (some a))) →
      findKey row aliases = (row.map Prod.fst).find?
        (fun k =>
          (aliases.map (fun a => normalizeAny (some a))).any
            (fun al => normalizeAny (some k) ≠ "" && strIncludes (normalizeAny (some k)) al))) := by
  constructor
  · rintro ⟨k, hk, hmem⟩
    have hsome : ((row.map Prod.fst).find?
        (fun k => (aliases.map (fun a => normalizeAny (some a))).contains
          (normalizeAny (some k)))).isSome := by
      rw [List.find?_isSome]
      exact ⟨k, hk, by simpa using hmem⟩
    unfold findKey
    cases hfind : (row.map Prod.fst).find?
        (fun k => (aliases.map (fun a => normalizeAny (some a))).contains
          (normalizeAny (some k))) with
    | none => rw [hfind] at hsome; simp at hsome
    | some v => simp only [hfind]
  · intro hnone
    have hnofind : (row.map Prod.fst).find?
        (fun k => (aliases.map (fun a => normalizeAny (some a))).contains
          (normalizeAny (some k))) = none := by
      rw [List.find?_eq_none]
      intro k hk
      simpa using hnone k hk
    unfold findKey
    simp only [hnofind]

/-- C7 witness: with headers `NomeProduto` then `Produto` and the alias
`produto`, the exact match `Produto` wins although the earlier header
contains the alias as a substring. -/
theorem findKey_exact_outranks_witness :
    findKey [("NomeProduto", CellValue.str ""), ("Produto", CellValue.str "")] ["produto"]
      = ([("NomeProduto", CellValue.str ""), ("Produto", CellValue.str "")].map
          Prod.fst).find?
        (fun k => (["produto"].map (fun a => normalizeAny (some a))).contains
          (normalizeAny (some k))) ∧
    findKey [("NomeProduto", CellValue.str ""), ("Produto", CellValue.str "")] ["produto"]
      = some "Produto" :=
  ⟨(findKey_exact_outranks
      [("NomeProduto", CellValue.str ""), ("Produto", CellValue.str "")] ["produto"]).1
    ⟨"Produto", by decide, by decide⟩, by decide⟩

/-- C8 counterexample: with the single alias `!!!` (which normalizes to the
empty string) and the single header `Foo` (no exact match, since `Foo`
normalizes to `foo`), the containment pass binds the role to `Foo` instead
of leaving it unresolved: the guard `normK !== ""` tests the header, not
the alias, so an empty normalized alias matches every header with non-empty
normalized form. -/
theorem emptyAlias_matches_counterexample :
    normalizeAny (some "!!!") = "" ∧
    normalizeAny (some "Foo") ≠ "" ∧
    findKey [("Foo", CellValue.str "")] ["!!!"] = some "Foo" := by
  refine ⟨by decide, by decide, by decide⟩

/-- C8 amended: the containment-pass guard protects headers whose normalized
form is empty, not empty aliases.  When every alias of a role normalizes to
the empty string and every header normalizes to a non-empty string (so no
exact match exists), the role is bound to the first header. -/
theorem emptyAlias_matches_first (row : RawRow) (aliases : List String)
    (hal : aliases ≠ [])
    (hempty : ∀ a ∈ aliases, normalizeAny (some a) = "")
    (hkeys : ∀ k ∈ row.map Prod.fst, normalizeAny (some k) ≠ "") :
    findKey row aliases = (row.map Prod.fst).head? := by
  have hmap : ∀ x ∈ aliases.map (fun a => normalizeAny (some a)), x = "" := by
    intro x hx
    obtain ⟨a, ha, rfl⟩ := List.mem_map.mp hx
    exact hempty a ha
  have hnoexact : (row.map Prod.fst).find?
      (fun k => (aliases.map (fun a => normalizeAny (some a))).contains
        (normalizeAny (some k))) = none := by
    rw [List.find?_eq_none]
    intro k hk hcon
    rw [List.contains_eq_any_beq, List.any_eq_true] at hcon
    obtain ⟨y, hy, hxy⟩ := hcon
    have hy0 : y = "" := hmap y hy
    subst hy0
    rw [beq_iff_eq] at hxy
    exact hkeys k hk hxy
  unfold findKey
  simp only [hnoexact]
  cases hrow : row.map Prod.fst with
  | nil => rfl
  | cons k ks =>
    have hk : normalizeAny (some k) ≠ "" := hkeys k (by rw [hrow]; simp)
    have hpred : (aliases.map (fun a => normalizeAny (some a))).any
        (fun al => normalizeAny (some k) ≠ "" && strIncludes (normalizeAny (some k)) al)
          = true := by
      rw [List.any_eq_true]
      obtain ⟨a, aliases', rfl⟩ : ∃ a aliases', aliases = a :: aliases' := by
        cases aliases with
        | nil => exact absurd rfl hal
        | cons a t => exact ⟨a, t, rfl⟩
      refine ⟨normalizeAny (some a), by simp, ?_⟩
      rw [hempty a (by simp)]
      rw [Bool.and_eq_true]
      refine ⟨by simpa using hk, ?_⟩
      unfold strIncludes
      exact decide_eq_true ⟨[], (normalizeAny (some k)).data, by simp⟩
    rw [List.find?_cons_of_pos _ (by simpa using hpred)]
    rfl

/-- C8 amended witness: concrete instance of the amended behaviour. -/
theorem emptyAlias_matches_first_witness :
    findKey [("Foo", CellValue.str "")] ["!!!"]
      = ([("Foo", CellValue.str "")].map Prod.fst).head? :=
  emptyAlias_matches_first [("Foo", CellValue.str "")] ["!!!"]
    (by decide) (by decide) (by decide)

/-! ## Claim C4: native-date coercion -/

/-- C4 counterexample: the native-date branch goes through `toISOString`,
which renders the UTC calendar fields.  For the instant 1970-01-01T00:00Z
seen from a zone with `getTimezoneOffset() = 180` (UTC−3), the date's own
calendar fields read 1969-12-31, yet the emitted string is `1970-01-01`:
no shift to local midnight is performed and the emitted ISO string names a
different calendar day than the date's own fields. -/
theorem dateCoercion_utc_counterexample :
    computeExpiry (some (.date ⟨0, 180, true⟩)) = .ok "1970-01-01" ∧
    civilFromDays (localDayOf ⟨0, 180, true⟩) = (1969, 12, 31) ∧
    dateToIso ⟨0, 180, true⟩ ≠ isoTriple (1969, 12, 31) ∧
    (⟨0, 180, true⟩ : JSDate).tzOffsetMin ≠ 0 := by
  refine ⟨rfl, by decide, by decide, by decide⟩

/-- C4 amended: a valid native date is formatted from the UTC calendar
fields of its instant (`toISOString`), with no local-midnight compensation;
the emitted day therefore coincides with the date's own (local-wall-clock)
fields whenever the timezone offset is zero, but can drift by a day
otherwise. -/
theorem dateCoercion_amended (d : JSDate) (hv : d.valid = true) :
    computeExpiry (some (.date d)) = .ok (isoTriple (civilFromDays (utcDayOf d))) ∧
    (d.tzOffsetMin = 0 →
      computeExpiry (some (.date d)) = .ok (isoTriple (civilFromDays (localDayOf d)))) := by
  have hstep : computeExpiry (some (.date d))
      = if d.valid = true then .ok (dateToIso d)
        else .ok (textDate (jsToString (.date d))) := rfl
  constructor
  · rw [hstep, if_pos hv]
    rfl
  · intro h0
    rw [hstep, if_pos hv]
    unfold dateToIso localDayOf utcDayOf
    rw [h0, sub_zero]

/-- C4 amended witness: a date at offset zero formats to the day of its own
calendar fields. -/
theorem dateCoercion_amended_witness :
    computeExpiry (some (.date ⟨28800300, 0, true⟩))
      = .ok (isoTriple (civilFromDays (localDayOf ⟨28800300, 0, true⟩))) :=
  (dateCoercion_amended ⟨28800300, 0, true⟩ rfl).2 rfl

/-! ## Claim C5: textual date dispatch -/

/-- C5 counterexample: the dispatch tests token length, not digits.  In
`ab/cd/efgh` the trimmed form splits into three tokens none of which
contains a single digit, so under the claim the value is invalid and the
row must be skipped; the code instead takes the DD/MM/YYYY branch on the
4-character last token and accepts the row with expiryDate `efgh-cd-ab`
(no skip is recorded). -/
theorem textDate_nondigit_counterexample :
    jsSplit (jsTrim "ab/cd/efgh") isDateSep = ["ab", "cd", "efgh"] ∧
    allDigits "efgh" = false ∧
    allDigits "ab" = false ∧
    textDate "ab/cd/efgh" = "efgh-cd-ab" ∧
    ("efgh-cd-ab" : String) ≠ "" ∧
    (parseTable "arq" tableBad).map (fun res => res.diagnostics.skippedRows) = .ok [] ∧
    (parseTable "arq" tableBad).map (fun res => res.products.length) = .ok 1 := by
  refine ⟨by decide, by decide, by decide, by decide, by decide, by decide, by decide⟩

/-- C5 amended: the three-token dispatch of the textual date branch turns on
token length, with tokens copied verbatim whether or not they are numeric —
a 4-character last token selects the DD/MM/YYYY reading (reorder, zero-pad),
otherwise a 4-character first token selects the YYYY/MM/DD reading,
otherwise the value is invalid; a token count other than three is invalid;
an invalid textual date makes the row a skip; and scenario A end-to-end. -/
theorem textDate_dispatch (s : String) :
    ((jsSplit (jsTrim s) isDateSep).length = 3 →
      (((jsSplit (jsTrim s) isDateSep).getD 2 "").length = 4 →
        textDate s = ((jsSplit (jsTrim s) isDateSep).getD 2 "") ++ "-"
          ++ pad2 ((jsSplit (jsTrim s) isDateSep).getD 1 "") ++ "-"
          ++ pad2 ((jsSplit (jsTrim s) isDateSep).getD 0 "")) ∧
      (((jsSplit (jsTrim s) isDateSep).getD 2 "").length ≠ 4 →
        ((jsSplit (jsTrim s) isDateSep).getD 0 "").length = 4 →
        textDate s = ((jsSplit (jsTrim s) isDateSep).getD 0 "") ++ "-"
          ++ pad2 ((jsSplit (jsTrim s) isDateSep).getD 1 "") ++ "-"
          ++ pad2 ((jsSplit (jsTrim s) isDateSep).getD 2 "")) ∧
      (((jsSplit (jsTrim s) isDateSep).getD 2 "").length ≠ 4 →
        ((jsSplit (jsTrim s) isDateSep).getD 0 "").length ≠ 4 →
        textDate s = "")) ∧
    ((jsSplit (jsTrim s) isDateSep).length ≠ 3 → textDate s = "") ∧
    (∀ cm r ek,
      ¬(jsFalsyOpt (cm.name.bind (rowGet r)) = true ∨
        jsTrim (jsToStringOpt (cm.name.bind (rowGet r))) = "") →
      cm.expiry = some ek → rowGet r ek = some (.str s) → textDate s = "" →
      classifyRow cm r = .skippedC ("Data inválida: \x22" ++ s ++ "\x22")) ∧
    parseTable "arq" tableA = .ok
      ⟨[recordA], ⟨1, 1, [], ["Produto", "Validade"], [readStep "arq"], tableA⟩⟩ := by
  refine ⟨?_, ?_, ?_, by decide⟩
  · intro h3
    refine ⟨?_, ?_, ?_⟩
    · intro h4
      unfold textDate
      rw [if_pos h3, if_pos h4]
    · intro hn4 h04
      unfold textDate
      rw [if_pos h3, if_neg hn4, if_pos h04]
    · intro hn4 hn04
      unfold textDate
      rw [if_pos h3, if_neg hn4, if_neg hn04]
  · intro hn3
    unfold textDate
    rw [if_neg hn3]
  · intro cm r ek hname hek hcell hbad
    have hval : cm.expiry.bind (rowGet r) = some (.str s) := by
      rw [hek]
      exact hcell
    have hce : computeExpiry (some (.str s)) = .ok (textDate s) := rfl
    unfold classifyRow
    rw [if_neg hname, hval, hce, hbad]
    rfl

/-- C5 witness: the dispatch applied at `31/12/2025` (DD/MM/YYYY reading)
and at `abc` (token count 1, invalid). -/
theorem textDate_dispatch_witness :
    textDate "31/12/2025"
      = ((jsSplit (jsTrim "31/12/2025") isDateSep).getD 2 "") ++ "-"
        ++ pad2 ((jsSplit (jsTrim "31/12/2025") isDateSep).getD 1 "") ++ "-"
        ++ pad2 ((jsSplit (jsTrim "31/12/2025") isDateSep).getD 0 "") ∧
    textDate "abc" = "" :=
  ⟨((textDate_dispatch "31/12/2025").1 (by decide)).1 (by decide),
   (textDate_dispatch "abc").2.1 (by decide)⟩

/-! ## Claim C6: the quantity field -/

/-- C6 counterexample: `parseInt(...) || 1` keeps any non-zero parsed value,
including negative ones, so an accepted record can carry the non-positive
quantity −5. -/
theorem quantity_negative_counterexample :
    (parseTable "arq" tableQ).map (fun res => res.products.map StagedRecord.quantity)
      = .ok [-5] ∧
    ¬ (0 < (-5 : Int)) := by
  refine ⟨by decide, by decide⟩

/-- C6 amended: for every accepted row the quantity is a non-zero integer:
it equals the parsed integer of the quantity cell when the column is
resolved and `parseInt` yields a non-zero value, and defaults to 1 when the
column is unresolved, or the cell is blank, unparsable, or parses to 0.  A
negative parsed value is kept as is, so positivity is not guaranteed. -/
theorem quantity_amended (cm : ColMapping) (r : RawRow) (rec : StagedRecord)
    (h : classifyRow cm r = .acceptedC rec) :
    rec.quantity ≠ 0 ∧
    rec.quantity =
      (match cm.quantity with
       | some k =>
         (match jsParseInt (jsToStringOpt (rowGet r k)) with
          | none => 1
          | some q => if q = 0 then 1 else q)
       | none => 1) := by
  have hq : rec.quantity =
      (match cm.quantity with
       | some k =>
         (match jsParseInt (jsToStringOpt (rowGet r k)) with
          | none => 1
          | some q => if q = 0 then 1 else q)
       | none => 1) := by
    simp only [classifyRow] at h
    split at h
    · exact absurd h (by simp)
    · split at h
      · exact absurd h (by simp)
      · split at h
        · exact absurd h (by simp)
        · cases h
          rfl
  refine ⟨?_, hq⟩
  rw [hq]
  cases hcm : cm.quantity with
  | none => simp
  | some k =>
    cases hp : jsParseInt (jsToStringOpt (rowGet r k)) with
    | none => simp [hp]
    | some q =>
      by_cases hq0 : q = 0
      · simp [hp, hq0]
      · simp [hp, hq0]

/-- C6 amended witness: the record of `tableQ` has quantity −5, matching
the parsed value of its quantity cell. -/
theorem quantity_amended_witness :
    (⟨"Leite", "2025-12-31", "Geral", -5, "", ""⟩ : StagedRecord).quantity ≠ 0 ∧
    (⟨"Leite", "2025-12-31", "Geral", -5, "", ""⟩ : StagedRecord).quantity =
      (match (colMapAt tableQ).quantity with
       | some k =>
         (match jsParseInt (jsToStringOpt (rowGet (tableQ.getD 0 []) k)) with
          | none => 1
          | some q => if q = 0 then 1 else q)
       | none => 1) :=
  quantity_amended (colMapAt tableQ) (tableQ.getD 0 [])
    ⟨"Leite", "2025-12-31", "Geral", -5, "", ""⟩ (by decide)

/-! ## Claim C9: blank-name rows are ignored -/

/-- C9: a row whose name cell is absent or blank after trimming is classified
Ignored, and the loop step over it leaves the accumulated products,
successCount and skippedRows untouched; end-to-end (scenario D) the
blank-name row still counts in `totalRowsFound` (2) while `successCount`
is 1 and `skippedRows` stays empty. -/
theorem blankName_ignored (cm : ColMapping) (n : Nat) (r : RawRow)
    (rest : List RawRow) (st : LoopState)
    (h : jsFalsyOpt (cm.name.bind (rowGet r)) = true ∨
      jsTrim (jsToStringOpt (cm.name.bind (rowGet r))) = "") :
    classifyRow cm r = .ignoredC ∧
    runRows cm n (r :: rest) st = runRows cm (n + 1) rest st ∧
    parseTable "arq" tableD = .ok
      ⟨[recordA], ⟨2, 1, [], ["Produto", "Validade"], [readStep "arq"],
        tableD⟩⟩ := by
  have hcl : classifyRow cm r = .ignoredC := by
    unfold classifyRow
    rw [if_pos h]
  refine ⟨hcl, ?_, by decide⟩
  show (match classifyRow cm r with
    | RowClass.acceptedC rec =>
      runRows cm (n + 1) rest ⟨st.products ++ [rec], st.successCount + 1, st.skippedRows⟩
    | RowClass.skippedC reason =>
      runRows cm (n + 1) rest ⟨st.products, st.successCount, st.skippedRows ++ [⟨n, reason⟩]⟩
    | RowClass.ignoredC => runRows cm (n + 1) rest st
    | RowClass.fatalC m => (st, some m)) = runRows cm (n + 1) rest st
  rw [hcl]

/-- C9 witness: the theorem applied to the blank-name row of scenario D. -/
theorem blankName_ignored_witness :
    classifyRow (colMapAt tableD) (tableD.getD 0 []) = .ignoredC ∧
    runRows (colMapAt tableD) 2 [tableD.getD 0 []] ⟨[], 0, []⟩
      = runRows (colMapAt tableD) 3 [] ⟨[], 0, []⟩ ∧
    parseTable "arq" tableD = .ok
      ⟨[recordA], ⟨2, 1, [], ["Produto", "Validade"], [readStep "arq"],
        tableD⟩⟩ :=
  blankName_ignored (colMapAt tableD) 2 (tableD.getD 0 []) [] ⟨[], 0, []⟩
    (by decide)

/-! ## Loop accounting lemmas -/

theorem runRows_nil (cm : ColMapping) (n : Nat) (st : LoopState) :
    runRows cm n [] st = (st, none) := rfl

theorem runRows_cons_accepted {cm : ColMapping} {r : RawRow} {rec : StagedRecord}
    (n : Nat) (rest : List RawRow) (st : LoopState)
    (hc : classifyRow cm r = .acceptedC rec) :
    runRows cm n (r :: rest) st
      = runRows cm (n + 1) rest
          ⟨st.products ++ [rec], st.successCount + 1, st.skippedRows⟩ := by
  conv_lhs => unfold runRows
  rw [hc]

theorem runRows_cons_skipped {cm : ColMapping} {r : RawRow} {reason : String}
    (n : Nat) (rest : List RawRow) (st : LoopState)
    (hc : classifyRow cm r = .skippedC reason) :
    runRows cm n (r :: rest) st
      = runRows cm (n + 1) rest
          ⟨st.products, st.successCount, st.skippedRows ++ [⟨n, reason⟩]⟩ := by
  conv_lhs => unfold runRows
  rw [hc]

theorem runRows_cons_ignored {cm : ColMapping} {r : RawRow}
    (n : Nat) (rest : List RawRow) (st : LoopState)
    (hc : classifyRow cm r = .ignoredC) :
    runRows cm n (r :: rest) st = runRows cm (n + 1) rest st := by
  conv_lhs => unfold runRows
  rw [hc]

theorem runRows_cons_fatal {cm : ColMapping} {r : RawRow} {m : String}
    (n : Nat) (rest : List RawRow) (st : LoopState)
    (hc : classifyRow cm r = .fatalC m) :
    runRows cm n (r :: rest) st = (st, some m) := by
  conv_lhs => unfold runRows
  rw [hc]

theorem runRows_counts (cm : ColMapping) :
    ∀ (rows : List RawRow) (n : Nat) (st : LoopState),
      (runRows cm n rows st).2 = none →
      (runRows cm n rows st).1.successCount
          = st.successCount + rows.countP (isAcceptedRow cm) ∧
      (runRows cm n rows st).1.products.length
          = st.products.length + rows.countP (isAcceptedRow cm) ∧
      (runRows cm n rows st).1.skippedRows.length
          = st.skippedRows.length + rows.countP (isSkippedRow cm) ∧
      rows.countP (isAcceptedRow cm) + rows.countP (isSkippedRow cm)
          + rows.countP (isIgnoredRow cm) = rows.length := by
  intro rows
  induction rows with
  | nil => intro n st h; simp [runRows_nil]
  | cons r rest ih =>
    intro n st h
    cases hc : classifyRow cm r with
    | acceptedC rec =>
      rw [runRows_cons_accepted n rest st hc] at h ⊢
      obtain ⟨h1, h2, h3, h4⟩ := ih (n + 1) _ h
      rw [h1, h2, h3]
      have ha : isAcceptedRow cm r = true := by unfold isAcceptedRow; rw [hc]
      have hs : isSkippedRow cm r = false := by unfold isSkippedRow; rw [hc]
      have hi : isIgnoredRow cm r = false := by unfold isIgnoredRow; rw [hc]
      simp only [List.countP_cons, ha, hs, hi, List.length_append, List.length_cons]
      refine ⟨by simp; omega, by simp; omega, by simp, by simp; omega⟩
    | skippedC reason =>
      rw [runRows_cons_skipped n rest st hc] at h ⊢
      obtain ⟨h1, h2, h3, h4⟩ := ih (n + 1) _ h
      rw [h1, h2, h3]
      have ha : isAcceptedRow cm r = false := by unfold isAcceptedRow; rw [hc]
      have hs : isSkippedRow cm r = true := by unfold isSkippedRow; rw [hc]
      have hi : isIgnoredRow cm r = false := by unfold isIgnoredRow; rw [hc]
      simp only [List.countP_cons, ha, hs, hi, List.length_append, List.length_cons]
      refine ⟨by simp, by simp, by simp; omega, by simp; omega⟩
    | ignoredC =>
      rw [runRows_cons_ignored n rest st hc] at h ⊢
      obtain ⟨h1, h2, h3, h4⟩ := ih (n + 1) _ h
      rw [h1, h2, h3]
      have ha : isAcceptedRow cm r = false := by unfold isAcceptedRow; rw [hc]
      have hs : isSkippedRow cm r = false := by unfold isSkippedRow; rw [hc]
      have hi : isIgnoredRow cm r = true := by unfold isIgnoredRow; rw [hc]
      simp only [List.countP_cons, ha, hs, hi, List.length_cons]
      refine ⟨by simp, by simp, by simp, by simp; omega⟩
    | fatalC m =>
      exfalso
      rw [runRows_cons_fatal n rest st hc] at h
      simp at h

theorem runRows_mem (cm : ColMapping) :
    ∀ (rows : List RawRow) (n : Nat) (st : LoopState) (rec : StagedRecord),
      rec ∈ (runRows cm n rows st).1.products →
      rec ∈ st.products ∨ ∃ r, classifyRow cm r = .acceptedC rec := by
  intro rows
  induction rows with
  | nil => intro n st rec h; exact Or.inl (by simpa [runRows_nil] using h)
  | cons r rest ih =>
    intro n st rec h
    cases hc : classifyRow cm r with
    | acceptedC rec0 =>
      rw [runRows_cons_accepted n rest st hc] at h
      rcases ih (n + 1) ⟨st.products ++ [rec0], st.successCount + 1, st.skippedRows⟩ rec h
        with hmem | hex
      · rcases List.mem_append.mp hmem with hmem1 | hmem2
        · exact Or.inl hmem1
        · refine Or.inr ⟨r, ?_⟩
          rw [hc, List.mem_singleton.mp hmem2]
      · exact Or.inr hex
    | skippedC reason =>
      rw [runRows_cons_skipped n rest st hc] at h
      exact ih (n + 1) ⟨st.products, st.successCount, st.skippedRows ++ [⟨n, reason⟩]⟩ rec h
    | ignoredC =>
      rw [runRows_cons_ignored n rest st hc] at h
      exact ih (n + 1) st rec h
    | fatalC m =>
      rw [runRows_cons_fatal n rest st hc] at h
      exact Or.inl h

/-! ## Header search and blank rows -/

theorem hasData_false_all {r : RawRow} (h : hasData r = false) :
    ∀ kv ∈ r, kv.2 = CellValue.str "" := by
  intro kv hkv
  unfold hasData at h
  rw [List.any_eq_false] at h
  have := h kv hkv
  simpa using this

theorem blank_row_ignored (cm : ColMapping) (r : RawRow) (h : hasData r = false) :
    classifyRow cm r = .ignoredC := by
  have hall := hasData_false_all h
  have hblank : jsFalsyOpt (cm.name.bind (rowGet r)) = true := by
    cases hn : cm.name with
    | none => rfl
    | some k =>
      show jsFalsyOpt (rowGet r k) = true
      unfold rowGet
      cases hf : r.find? (fun kv => kv.1 = k) with
      | none => rfl
      | some kv =>
        have hkv := List.mem_of_find?_eq_some hf
        have h2 := hall kv hkv
        simp [jsFalsyOpt, jsFalsy, h2]
  unfold classifyRow
  rw [if_pos (Or.inl hblank)]

theorem takeWhile_get? {α : Type} (p : α → Bool) :
    ∀ (l : List α) (i : Nat) (x : α), (l.takeWhile p).get? i = some x →
      l.get? i = some x ∧ p x = true := by
  intro l
  induction l with
  | nil => intro i x h; simp [List.takeWhile] at h
  | cons a t ih =>
    intro i x h
    by_cases hp : p a
    · rw [List.takeWhile_cons_of_pos hp] at h
      cases i with
      | zero =>
        simp only [List.get?] at h ⊢
        refine ⟨h, ?_⟩
        cases h
        exact hp
      | succ j =>
        simp only [List.get?] at h ⊢
        exact ih j x h
    · rw [List.takeWhile_cons_of_neg (by simpa using hp)] at h
      simp at h

theorem headerRowIndexOf_le (json : List RawRow) :
    headerRowIndexOf json ≤ min json.length 10 := by
  unfold headerRowIndexOf
  have h1 : ((json.take (min json.length 10)).takeWhile (fun r => !hasData r)).length
      ≤ (json.take (min json.length 10)).length :=
    (List.takeWhile_sublist _).length_le
  rw [List.length_take] at h1
  omega

theorem before_header_blank (json : List RawRow) (i : Nat)
    (hi : i < headerRowIndexOf json) :
    ∃ r, json.get? i = some r ∧ hasData r = false := by
  have hle := headerRowIndexOf_le json
  unfold headerRowIndexOf at hi
  unfold headerRowIndexOf at hle
  cases hx : ((json.take (min json.length 10)).takeWhile (fun r => !hasData r)).get? i with
  | none =>
    exfalso
    have := List.get?_eq_none.mp hx
    omega
  | some r =>
    obtain ⟨hg, hp⟩ := takeWhile_get? _ _ i r hx
    have hg2 : json.get? i = some r := by
      rw [← hg]
      symm
      rw [List.get?_eq_getElem?, List.get?_eq_getElem?]
      exact List.getElem?_take_of_lt (by omega)
    refine ⟨r, hg2, by simpa using hp⟩

/-! ## Inversion of a successful import -/

theorem parseTable_ok_inv (fileName : String) (json : List RawRow) (res : ImportResult)
    (h : parseTable fileName json = .ok res) :
    (loopOut json).2 = none ∧
    res.products = (loopOut json).1.products ∧
    res.diagnostics.totalRowsFound = json.length ∧
    res.diagnostics.successCount = (loopOut json).1.successCount ∧
    res.diagnostics.skippedRows = (loopOut json).1.skippedRows := by
  unfold parseTable at h
  split at h
  · exact absurd h (by simp)
  · split at h
    · exact absurd h (by simp)
    · rename_i fr hfr
      split at h
      · exact absurd h (by simp)
      · rename_i hkeys
        have hcm : colMapAt json = colMappingOf fr := by
          unfold colMapAt
          rw [hfr]
        split at h
        · exact absurd h (by simp)
        · rename_i st hrun
          have hres : res = ⟨st.products, ⟨json.length, st.successCount, st.skippedRows,
              fr.map Prod.fst, [readStep fileName], json.take 3⟩⟩ := by
            cases h
            rfl
          have hloop : loopOut json = (st, none) := by
            unfold loopOut
            rw [hcm]
            exact hrun
          rw [hres, hloop]
          exact ⟨rfl, rfl, rfl, rfl, rfl⟩

/-! ## Claim C2: row accounting -/

/-- C2 counterexample: `tableFatal` resolves both required columns (so it
reaches the row loop), yet the import rejects with
`diagnostics.totalRowsFound = 0` although one row was supplied —
`totalRowsFound` is written only after the loop completes. -/
theorem rowLoop_crash_counterexample :
    jsFalsyKey (colMapAt tableFatal).name = false ∧
    jsFalsyKey (colMapAt tableFatal).expiry = false ∧
    tableFatal.length = 1 ∧
    parseTable "arq" tableFatal = .error
      ⟨"Cannot read properties of null (reading \x27y\x27)",
        ⟨0, 0, [], ["Produto", "Validade"], [readStep "arq"], tableFatal⟩⟩ ∧
    (⟨"Cannot read properties of null (reading \x27y\x27)",
        ⟨0, 0, [], ["Produto", "Validade"], [readStep "arq"], tableFatal⟩⟩ :
      ImportFailure).diagnostics.totalRowsFound ≠ tableFatal.length := by
  refine ⟨by decide, by decide, by decide, by decide, by decide⟩

/-- C2 amended: for every import whose row loop completes (equivalently,
that resolves successfully), `totalRowsFound` equals the number of rows
supplied, `successCount` equals both the length of the accepted list and
the number of rows classified Accepted, and
`successCount + skippedRows.length + ignoredCount = totalRowsFound`, where
`ignoredCount` counts the rows the per-row classifier marks Ignored
(leading blank rows skipped by the header search are all blank-named and
hence Ignored). -/
theorem importAccounting (fileName : String) (json : List RawRow) (res : ImportResult)
    (h : parseTable fileName json = .ok res) :
    res.diagnostics.totalRowsFound = json.length ∧
    res.diagnostics.successCount = res.products.length ∧
    res.diagnostics.successCount = json.countP (isAcceptedRow (colMapAt json)) ∧
    res.diagnostics.successCount + res.diagnostics.skippedRows.length
      + json.countP (isIgnoredRow (colMapAt json)) = json.length := by
  obtain ⟨h2none, hprod, htot, hsucc, hskip⟩ := parseTable_ok_inv fileName json res h
  have h2none2 : (runRows (colMapAt json) (headerRowIndexOf json + 2)
      (json.drop (headerRowIndexOf json)) ⟨[], 0, []⟩).2 = none := h2none
  obtain ⟨c1, c2, c3, c4⟩ := runRows_counts (colMapAt json)
    (json.drop (headerRowIndexOf json)) (headerRowIndexOf json + 2) ⟨[], 0, []⟩ h2none2
  have hidxle : headerRowIndexOf json ≤ json.length := by
    have := headerRowIndexOf_le json
    omega
  have htakelen : (json.take (headerRowIndexOf json)).length = headerRowIndexOf json := by
    rw [List.length_take]
    omega
  have htake_cls : ∀ r ∈ json.take (headerRowIndexOf json),
      classifyRow (colMapAt json) r = .ignoredC := by
    intro r hr
    obtain ⟨i, hget⟩ := List.mem_iff_get?.mp hr
    have hlt : i < (json.take (headerRowIndexOf json)).length := by
      by_contra hge
      rw [List.get?_eq_none.mpr (by omega)] at hget
      cases hget
    have hi : i < headerRowIndexOf json := by omega
    obtain ⟨r2, hr2, hblank⟩ := before_header_blank json i hi
    have : json.get? i = some r := by
      rw [← hget]
      rw [List.get?_eq_getElem?, List.get?_eq_getElem?]
      exact (List.getElem?_take_of_lt hi).symm
    rw [this] at hr2
    cases hr2
    exact blank_row_ignored _ _ hblank
  have htake_ign : (json.take (headerRowIndexOf json)).countP
      (isIgnoredRow (colMapAt json)) = headerRowIndexOf json := by
    rw [List.countP_eq_length.mpr, htakelen]
    intro r hr
    unfold isIgnoredRow
    rw [htake_cls r hr]
  have htake_acc : (json.take (headerRowIndexOf json)).countP
      (isAcceptedRow (colMapAt json)) = 0 := by
    rw [List.countP_eq_zero]
    intro r hr
    unfold isAcceptedRow
    rw [htake_cls r hr]
    simp
  have hsplit : ∀ p : RawRow → Bool, json.countP p
      = (json.take (headerRowIndexOf json)).countP p
        + (json.drop (headerRowIndexOf json)).countP p := by
    intro p
    conv_lhs => rw [← List.take_append_drop (headerRowIndexOf json) json]
    rw [List.countP_append]
  have hsplit_acc := hsplit (isAcceptedRow (colMapAt json))
  have hsplit_ign := hsplit (isIgnoredRow (colMapAt json))
  have hdroplen : (json.drop (headerRowIndexOf json)).length
      = json.length - headerRowIndexOf json := List.length_drop _ _
  have hprodlen : res.products.length = (loopOut json).1.products.length := by
    rw [hprod]
  have hskiplen : res.diagnostics.skippedRows.length
      = (loopOut json).1.skippedRows.length := by
    rw [hskip]
  refine ⟨htot, ?_, ?_, ?_⟩
  · rw [hsucc, hprodlen]
    have c1x : (loopOut json).1.successCount = 0
        + (json.drop (headerRowIndexOf json)).countP (isAcceptedRow (colMapAt json)) := c1
    have c2x : (loopOut json).1.products.length = 0
        + (json.drop (headerRowIndexOf json)).countP (isAcceptedRow (colMapAt json)) := c2
    omega
  · rw [hsucc, hsplit_acc, htake_acc]
    have c1x : (loopOut json).1.successCount = 0
        + (json.drop (headerRowIndexOf json)).countP (isAcceptedRow (colMapAt json)) := c1
    omega
  · rw [hsucc, hskiplen, hsplit_ign, htake_ign]
    have c1x : (loopOut json).1.successCount = 0
        + (json.drop (headerRowIndexOf json)).countP (isAcceptedRow (colMapAt json)) := c1
    have c3x : (loopOut json).1.skippedRows.length = 0
        + (json.drop (headerRowIndexOf json)).countP (isSkippedRow (colMapAt json)) := c3
    omega

/-- C2 witness: the accounting instantiated on the scenario A table. -/
theorem importAccounting_witness :
    (⟨[recordA], ⟨1, 1, [], ["Produto", "Validade"], [readStep "arq"], tableA⟩⟩ :
        ImportResult).diagnostics.totalRowsFound = tableA.length ∧
    (⟨[recordA], ⟨1, 1, [], ["Produto", "Validade"], [readStep "arq"], tableA⟩⟩ :
        ImportResult).diagnostics.successCount
      = (⟨[recordA], ⟨1, 1, [], ["Produto", "Validade"], [readStep "arq"], tableA⟩⟩ :
        ImportResult).products.length ∧
    (⟨[recordA], ⟨1, 1, [], ["Produto", "Validade"], [readStep "arq"], tableA⟩⟩ :
        ImportResult).diagnostics.successCount
      = tableA.countP (isAcceptedRow (colMapAt tableA)) ∧
    (⟨[recordA], ⟨1, 1, [], ["Produto", "Validade"], [readStep "arq"], tableA⟩⟩ :
        ImportResult).diagnostics.successCount
      + (⟨[recordA], ⟨1, 1, [], ["Produto", "Validade"], [readStep "arq"], tableA⟩⟩ :
        ImportResult).diagnostics.skippedRows.length
      + tableA.countP (isIgnoredRow (colMapAt tableA)) = tableA.length :=
  importAccounting "arq" tableA
    ⟨[recordA], ⟨1, 1, [], ["Produto", "Validade"], [readStep "arq"], tableA⟩⟩ (by decide)

/-! ## Claim C1: the gate invariant on accepted records -/

theorem accepted_fields (cm : ColMapping) (r : RawRow) (rec : StagedRecord)
    (h : classifyRow cm r = .acceptedC rec) :
    rec.name ≠ "" ∧ rec.expiryDate ≠ "" ∧ rec.expiryDate ≠ "NaN-NaN-NaN" := by
  simp only [classifyRow] at h
  split at h
  · exact absurd h (by simp)
  · rename_i hguard
    split at h
    · exact absurd h (by simp)
    · split at h
      · exact absurd h (by simp)
      · rename_i hskip
        cases h
        push_neg at hguard hskip
        exact ⟨hguard.2, hskip.1, hskip.2⟩

theorem exists_four {l : List Char} (h : l.length = 4) :
    ∃ a b c d, l = [a, b, c, d] := by
  cases l with
  | nil => simp at h
  | cons a l1 =>
    cases l1 with
    | nil => simp at h
    | cons b l2 =>
      cases l2 with
      | nil => simp at h
      | cons c l3 =>
        cases l3 with
        | nil => simp at h
        | cons d l4 =>
          cases l4 with
          | nil => exact ⟨a, b, c, d, rfl⟩
          | cons e l5 => simp at h

theorem pad2_shape {p : String} (hd : allDigits p = true) (hl : p.length ≤ 2) :
    ∃ x y, (pad2 p).data = [x, y] ∧ x.isDigit = true ∧ y.isDigit = true := by
  obtain ⟨l⟩ := p
  cases l with
  | nil => exact ⟨'0', '0', rfl, by decide, by decide⟩
  | cons a l1 =>
    cases l1 with
    | nil =>
      have ha : a.isDigit = true := by simpa [allDigits] using hd
      exact ⟨'0', a, rfl, by decide, ha⟩
    | cons b l2 =>
      cases l2 with
      | nil =>
        have hab : a.isDigit = true ∧ b.isDigit = true := by
          simpa [allDigits] using hd
        exact ⟨a, b, rfl, hab.1, hab.2⟩
      | cons c l3 =>
        exfalso
        have : (String.mk (a :: b :: c :: l3)).length = l3.length + 3 := by
          simp [String.length]
        omega

theorem iso_of_good_tokens {p0 p1 p2 : String}
    (h2d : allDigits p2 = true) (h2l : p2.length = 4)
    (h1d : allDigits p1 = true) (h1l : p1.length ≤ 2)
    (h0d : allDigits p0 = true) (h0l : p0.length ≤ 2) :
    isISODate (p2 ++ "-" ++ pad2 p1 ++ "-" ++ pad2 p0) = true := by
  obtain ⟨y1, y2, y3, y4, hy⟩ := exists_four (l := p2.data) (by
    have : p2.length = p2.data.length := rfl
    omega)
  have hys : ∀ c ∈ p2.data, c.isDigit = true := by
    simpa [allDigits, List.all_eq_true] using h2d
  have hy1 : y1.isDigit = true := hys y1 (by rw [hy]; simp)
  have hy2 : y2.isDigit = true := hys y2 (by rw [hy]; simp)
  have hy3 : y3.isDigit = true := hys y3 (by rw [hy]; simp)
  have hy4 : y4.isDigit = true := hys y4 (by rw [hy]; simp)
  obtain ⟨m1, m2, hm, hm1, hm2⟩ := pad2_shape h1d h1l
  obtain ⟨d1, d2, hdd, hd1, hd2⟩ := pad2_shape h0d h0l
  have hdata : (p2 ++ "-" ++ pad2 p1 ++ "-" ++ pad2 p0).data
      = p2.data ++ ['-'] ++ (pad2 p1).data ++ ['-'] ++ (pad2 p0).data := by
    simp [data_append]
  unfold isISODate
  rw [hdata, hy, hm, hdd]
  simp [hy1, hy2, hy3, hy4, hm1, hm2, hd1, hd2]

/-- C1 counterexample: the text branch copies the split tokens verbatim into
the date slot, so the row `["X", "ab/cd/efgh"]` is accepted with the
expiryDate `efgh-cd-ab`, which is not a syntactically valid ISO date. -/
theorem acceptedRecord_counterexample :
    (parseTable "arq" tableBad).map (fun res => res.products.map StagedRecord.expiryDate)
      = .ok ["efgh-cd-ab"] ∧
    isISODate "efgh-cd-ab" = false := by
  refine ⟨by decide, by decide⟩

/-- C1 amended: every record appended to the accepted list has a non-empty
(already trimmed) name and an expiryDate that is non-empty and different
from the failed-parse marker `NaN-NaN-NaN` — that is exactly what the gate
checks; the expiryDate has valid ISO `YYYY-MM-DD` shape whenever the expiry
cell text splits into three all-digit tokens of widths ≤2/≤2/4 (the
DD/MM/YYYY reading), but non-numeric tokens are copied verbatim, so ISO
validity is not guaranteed in general. -/
theorem acceptedRecord_amended :
    (∀ fileName json res rec, parseTable fileName json = .ok res → rec ∈ res.products →
      rec.name ≠ "" ∧ rec.expiryDate ≠ "" ∧ rec.expiryDate ≠ "NaN-NaN-NaN") ∧
    (∀ s p0 p1 p2, jsSplit (jsTrim s) isDateSep = [p0, p1, p2] →
      allDigits p2 = true → p2.length = 4 → allDigits p1 = true → p1.length ≤ 2 →
      allDigits p0 = true → p0.length ≤ 2 → isISODate (textDate s) = true) := by
  constructor
  · intro fileName json res rec hok hmem
    obtain ⟨h2none, hprod, _, _, _⟩ := parseTable_ok_inv fileName json res hok
    rw [hprod] at hmem
    rcases runRows_mem (colMapAt json) (json.drop (headerRowIndexOf json))
        (headerRowIndexOf json + 2) ⟨[], 0, []⟩ rec hmem with hin | ⟨r, hr⟩
    · simp at hin
    · exact accepted_fields _ _ _ hr
  · intro s p0 p1 p2 hsplit h2d h2l h1d h1l h0d h0l
    have htd : textDate s = p2 ++ "-" ++ pad2 p1 ++ "-" ++ pad2 p0 := by
      simp only [textDate]
      rw [hsplit]
      rw [if_pos (show ([p0, p1, p2].length = 3) from rfl)]
      rw [if_pos (show (([p0, p1, p2].getD 2 "").length = 4) from h2l)]
      rfl
    rw [htd]
    exact iso_of_good_tokens h2d h2l h1d h1l h0d h0l

/-- C1 amended witness: the gate facts on the scenario A record, and the
ISO shape of the good-token date `31/12/2025`. -/
theorem acceptedRecord_amended_witness :
    (recordA.name ≠ "" ∧ recordA.expiryDate ≠ "" ∧ recordA.expiryDate ≠ "NaN-NaN-NaN") ∧
    isISODate (textDate "31/12/2025") = true :=
  ⟨acceptedRecord_amended.1 "arq" tableA
      ⟨[recordA], ⟨1, 1, [], ["Produto", "Validade"], [readStep "arq"], tableA⟩⟩
      recordA (by decide) (by decide),
   acceptedRecord_amended.2 "31/12/2025" "31" "12" "2025" (by decide) (by decide)
     (by decide) (by decide) (by decide) (by decide) (by decide)⟩

/-! ## Claim C3: fatal failures carry diagnostics -/

theorem mem_joinComma {x : String} :
    ∀ {l : List String}, x ∈ l → x.data <:+: (joinComma l).data := by
  intro l
  induction l with
  | nil => intro h; simp at h
  | cons s rest ih =>
    intro h
    cases rest with
    | nil =>
      have hx : x = s := by simpa using h
      subst hx
      exact ⟨[], [], by simp [joinComma]⟩
    | cons t ts =>
      have hj : joinComma (s :: t :: ts) = s ++ ", " ++ joinComma (t :: ts) := rfl
      rcases List.mem_cons.mp h with rfl | hmem
      · refine ⟨[], (", " ++ joinComma (t :: ts)).data, ?_⟩
        rw [hj]
        simp [data_append]
      · obtain ⟨u, v, huv⟩ := ih hmem
        refine ⟨(s ++ ", ").data ++ u, v, ?_⟩
        rw [hj]
        have : ((s ++ ", ") ++ joinComma (t :: ts)).data
            = (s ++ ", ").data ++ (joinComma (t :: ts)).data := data_append _ _
        rw [this, ← huv]
        simp [List.append_assoc]

theorem mem_missingColsMsg {x : String} {cols : List String} (h : x ∈ cols) :
    x.data <:+: (missingColsMsg cols).data := by
  obtain ⟨u, v, huv⟩ := mem_joinComma h
  refine ⟨("Não encontrei as colunas \x27Produto\x27 e \x27Validade\x27.\nColunas detectadas: "
    : String).data ++ u, v, ?_⟩
  unfold missingColsMsg
  rw [data_append, ← huv]
  simp [List.append_assoc]

/-- C3: whenever the import fails, the failure carries the step log
accumulated so far; an empty table yields the `EmptySource` failure with the
initial diagnostics; and when the required columns are unresolved, the
failure message is the missing-columns message, the diagnostics carry the
observed header list and the raw preview collected so far, and every
observed header string occurs verbatim inside the message. -/
theorem failureDiagnostics (fileName : String) (json : List RawRow) (e : ImportFailure)
    (h : parseTable fileName json = .error e) :
    e.diagnostics.steps = [readStep fileName] ∧
    (json = [] → e = ⟨emptySheetMsg, ⟨0, 0, [], [], [readStep fileName], []⟩⟩) ∧
    (∀ fr, json.get? (headerRowIndexOf json) = some fr →
      (jsFalsyKey (colMappingOf fr).name = true ∨
        jsFalsyKey (colMappingOf fr).expiry = true) →
      e.message = missingColsMsg (fr.map Prod.fst) ∧
      e.diagnostics.columnsFound = fr.map Prod.fst ∧
      e.diagnostics.rawPreview = json.take 3 ∧
      ∀ hd ∈ fr.map Prod.fst, hd.data <:+: e.message.data) := by
  unfold parseTable at h
  split at h
  · rename_i hemp
    have he : e = ⟨emptySheetMsg, ⟨0, 0, [], [], [readStep fileName], []⟩⟩ := by
      cases h
      rfl
    subst he
    refine ⟨rfl, fun _ => rfl, ?_⟩
    intro fr hfr hfal
    exfalso
    have hjson : json = [] := by simpa using hemp
    subst hjson
    simp [headerRowIndexOf] at hfr
  · rename_i hemp
    have hne : json ≠ [] := by
      intro hj
      subst hj
      simp at hemp
    split at h
    · rename_i hnone
      have he : e = ⟨keysOfUndefinedMsg, ⟨0, 0, [], [], [readStep fileName], json.take 3⟩⟩ := by
        cases h
        rfl
      subst he
      refine ⟨rfl, fun hj => absurd hj hne, ?_⟩
      intro fr hfr hfal
      rw [hnone] at hfr
      cases hfr
    · rename_i fr hfr
      split at h
      · rename_i hfal
        have he : e = ⟨missingColsMsg (fr.map Prod.fst),
            ⟨0, 0, [], fr.map Prod.fst, [readStep fileName], json.take 3⟩⟩ := by
          cases h
          rfl
        subst he
        refine ⟨rfl, fun hj => absurd hj hne, ?_⟩
        intro fr2 hfr2 _
        rw [hfr] at hfr2
        cases hfr2
        refine ⟨rfl, rfl, rfl, ?_⟩
        intro hd hmem
        exact mem_missingColsMsg hmem
      · rename_i hfal
        split at h
        · rename_i st m hrun
          have he : e = ⟨m, ⟨0, st.successCount, st.skippedRows, fr.map Prod.fst,
              [readStep fileName], json.take 3⟩⟩ := by
            cases h
            rfl
          subst he
          refine ⟨rfl, fun hj => absurd hj hne, ?_⟩
          intro fr2 hfr2 hfal2
          exfalso
          rw [hfr] at hfr2
          cases hfr2
          exact hfal hfal2
        · exact absurd h (by simp)

/-- C3 witness: the missing-columns failure of scenario C carries the step
log, names both observed headers in its message, and the header `Preço`
occurs verbatim inside the message. -/
theorem failureDiagnostics_witness :
    failureC.diagnostics.steps = [readStep "arq"] ∧
    failureC.message = missingColsMsg (["Produto", "Preço"]) ∧
    ("Preço" : String).data <:+: failureC.message.data := by
  have h := failureDiagnostics "arq" tableC failureC (by decide)
  obtain ⟨hm, hcf, hrp, hinf⟩ := h.2.2
    [("Produto", CellValue.str "x"), ("Preço", CellValue.str "1")] (by decide) (by decide)
  exact ⟨h.1, hm, hinf "Preço" (by decide)⟩

end ControleVencimentos
